import Mathlib

/-!
Verification of the sensor-mesh daemon (`src/cmd/daemon.go` and the
combined-loop variant).  The daemon runs a producer loop (`publish`) that
appends the reading buffer to a replicated log, and a consumer loop
(`subscribe`) that polls the log newest-first and mirrors fresh entries
into a local sink file, deduplicating against the last value seen.

Byte payloads are modelled as `List Nat`; the newline byte is 10.
-/

namespace SensorMesh

/-- A raw byte payload (a Go `[]byte`). -/
abbrev Bytes := List Nat

/-- Go `strings.TrimRight(string(v), "\n")`: drop every trailing newline
byte (0x0A) from the payload. -/
def trimRightNewline (b : Bytes) : Bytes :=
  (b.reverse.dropWhile (fun c => c = 10)).reverse

/-- State of the consumer loop (`subscribe` in `daemon.go`).
`lastValue` is the Go local `lastValue []byte` (`none` models the initial
nil slice, which `reflect.DeepEqual` distinguishes from every non-nil
slice).  `sink` is the sequence of lines written to the log file, each
stored as its byte content after trailing-newline stripping.  `raws` is a
ghost history: the raw (untrimmed) bytes of every accepted entry, i.e. the
successive values taken by `lastValue`; it is used only to state
invariants and does not influence the step function. -/
structure ConsumerState where
  lastValue : Option Bytes
  sink : List Bytes
  raws : List Bytes
deriving DecidableEq, Repr

/-- The consumer state at loop entry: `var lastValue []byte` and an empty
(freshly created or untouched) sink file. -/
def initConsumer : ConsumerState := ⟨none, [], []⟩

/-- Accepting a fresh value `v` (`daemon.go` lines 99-100):
`lastValue = op[0].GetValue()` followed by
`fileWriter.Println(strings.TrimRight(string(op[0].GetValue()), "\n"))`. -/
def acceptValue (s : ConsumerState) (v : Bytes) : ConsumerState :=
  { lastValue := some v
    sink := s.sink ++ [trimRightNewline v]
    raws := s.raws ++ [v] }

/-- One successful consumer poll (`daemon.go` lines 94-101).  `op` is the
newest-first list returned by `logStore.List`; the body runs
`if len(op) > 0 && !reflect.DeepEqual(op[0].GetValue(), lastValue)` and
only ever inspects `op[0]`. -/
def subscribeStep (s : ConsumerState) (op : List Bytes) : ConsumerState :=
  match op with
  | [] => s
  | v :: _ => if some v = s.lastValue then s else acceptValue s v

/-- Outcome of one `logStore.List` call: either the newest-first entry
list, or an error (which the Go code turns into a panic). -/
inductive PollResult
  | ok (ops : List Bytes)
  | err
deriving DecidableEq, Repr

/-- The consumer loop run over a finite schedule of poll outcomes.
Returns the final consumer state together with the cancellation flag:
on a `List` error the loop panics, `defer cancel()` fires (flag `true`)
and no further iteration runs; otherwise the loop consumes the whole
schedule with the context still live (flag `false`). -/
def runSubscribe : ConsumerState → List PollResult → ConsumerState × Bool
  | s, [] => (s, false)
  | s, PollResult.err :: _ => (s, true)
  | s, PollResult.ok ops :: rest => runSubscribe (subscribeStep s ops) rest

/-- Consumer polls where each poll succeeds and the observed newest value
is fed as the head of the returned list (the only element the body
reads). -/
def consumeAll (s : ConsumerState) (obs : List Bytes) : ConsumerState :=
  obs.foldl (fun t v => subscribeStep t [v]) s

/-- `subscribeStep` only reads the head of the fetched list. -/
theorem subscribeStep_head (s : ConsumerState) (v : Bytes) (rest : List Bytes) :
    subscribeStep s (v :: rest) = subscribeStep s [v] := rfl

/-- State of the producer loop (`publish` in `daemon.go`): the shared
`logbuf bytes.Buffer` into which the zerolog logger writes, and the local
`lastTriggerTime` (Unix seconds). -/
structure ProducerState where
  logbuf : Bytes
  lastTriggerTime : Int
deriving DecidableEq, Repr

/-- One iteration of the producer loop (`daemon.go` lines 52-74).
`now` is `time.Now().Unix()`; `whisper` is the JSON line the call
`logger.Info()...Send()` appends to `logbuf`; `addOk` tells whether
`logStore.Add` succeeds.  Returns the next state, the payload appended to
the replicated log (`none` when no append happened or the add failed),
and whether the iteration panicked.  When the interval has not elapsed
the body skips straight to `logbuf.Reset()`; when the add fails the body
panics before reaching `logbuf.Reset()`, so the buffer keeps the whisper
payload. -/
def publishIter (s : ProducerState) (now : Int) (whisper : Bytes) (addOk : Bool) :
    ProducerState × Option Bytes × Bool :=
  if 30 ≤ now - s.lastTriggerTime then
    if addOk then
      (⟨[], now⟩, some (s.logbuf ++ whisper), false)
    else
      (⟨s.logbuf ++ whisper, now⟩, none, true)
  else
    (⟨[], s.lastTriggerTime⟩, none, false)

/-- The producer loop run over a finite schedule of iteration inputs.
Returns the final state, the payloads successfully appended to the
replicated log, and the cancellation flag: a failed `Add` panics,
`defer cancel()` fires (flag `true`) and no further iteration runs. -/
def runPublish : ProducerState → List (Int × Bytes × Bool) → ProducerState × List Bytes × Bool
  | s, [] => (s, [], false)
  | s, (now, w, ok) :: rest =>
    match publishIter s now w ok with
    | (s', _, true) => (s', [], true)
    | (s', pay, false) =>
      let r := runPublish s' rest
      (r.1, pay.toList ++ r.2.1, r.2.2)

/-- The lifecycle flag paired with the consumer state.  The Go loop body
never inspects the cancelled context: an iteration behaves identically
whether or not `cancel()` has already been called, and only stops when a
`List` call itself returns an error. -/
structure LoopWorld where
  cancelled : Bool
  consumer : ConsumerState
deriving DecidableEq, Repr

/-- One consumer-loop iteration at the daemon level (`daemon.go` lines
87-102): the body performs the `List` call and the conditional write
without consulting `ctx`; an error panics, firing `defer cancel()`.
The second component is `true` when the loop stops (panic). -/
def consumerLoopIter (w : LoopWorld) (p : PollResult) : LoopWorld × Bool :=
  match p with
  | PollResult.err => ({ w with cancelled := true }, true)
  | PollResult.ok ops => ({ w with consumer := subscribeStep w.consumer ops }, false)

/-- Exit paths of the split-loop daemon. -/
inductive ExitTrigger
  | interrupt
  | producerFatal
  | consumerFatal
deriving DecidableEq, Repr

/-- How many times the program closes the sink file handle on each exit
path.  The only close is `defer file.Close()` inside `subscribe`
(`daemon.go` line 85).  In Go a goroutine's deferred calls run only when
that goroutine itself returns or panics: when `subscribe` panics on a
`List` error the deferred close runs once; when `publish` panics, the
runtime terminates the process without unwinding the `subscribe`
goroutine; when `Run` returns after `<-sigint` (`daemon.go` lines
180-187) `main` exits and the goroutines are likewise discarded without
running their defers. -/
def sinkCloseCount : ExitTrigger → Nat
  | ExitTrigger.consumerFatal => 1
  | ExitTrigger.producerFatal => 0
  | ExitTrigger.interrupt => 0

/-- Observable durable-store and lifecycle events of one daemon run. -/
inductive DaemonEvent
  | configRead
  | storeOpen
  | loopsStart
  | interruptReceived
  | configWrite
  | processExit
deriving DecidableEq, Repr

/-- Event trace of the split-loop variant (`daemon.go`).  `PreRun` (lines
117-171) loads the configuration file, opens the log store, records the
resolved address with `ViperConfs.Set`, and calls
`ViperConfs.WriteConfig()`; `Run` (lines 172-187) then starts the two
loops, blocks on `<-sigint`, prints a message and returns. -/
def splitVariantTrace : List DaemonEvent :=
  [DaemonEvent.configRead, DaemonEvent.storeOpen, DaemonEvent.configWrite,
   DaemonEvent.loopsStart, DaemonEvent.interruptReceived, DaemonEvent.processExit]

/-- Event trace of the combined-loop variant (`src/unnamed/part_000`).
`PreRun` (lines 53-101) loads the configuration and opens the store;
`Run` (lines 102-135) starts the loop goroutine, blocks on the interrupt
channel, and only then calls `ViperConfs.WriteConfig()` before exiting. -/
def combinedVariantTrace : List DaemonEvent :=
  [DaemonEvent.configRead, DaemonEvent.storeOpen, DaemonEvent.loopsStart,
   DaemonEvent.interruptReceived, DaemonEvent.configWrite, DaemonEvent.processExit]

/-- Outcome of one iteration of the combined loop
(`src/unnamed/part_000` lines 105-125). -/
inductive IterOutcome
  | value (v : Bytes)
  | addFailed
  | listFailed
  | indexOutOfRange
deriving DecidableEq, Repr

/-- One iteration of the combined loop: `logStore.Add` (panic on error),
then `logStore.List` (panic on error), then `op[0].GetValue()` —
the index is taken without checking `len(op)`, so an empty list is a
runtime index-out-of-range panic.  `listRes` is `none` on a `List`
error. -/
def combinedLoopIter (addOk : Bool) (listRes : Option (List Bytes)) : IterOutcome :=
  if addOk then
    match listRes with
    | none => IterOutcome.listFailed
    | some [] => IterOutcome.indexOutOfRange
    | some (v :: _) => IterOutcome.value v
  else IterOutcome.addFailed

/-- Spec-side definition (from the words of the spec, for comparison with
the code's behaviour): the maximal run-length-encoded collapse of a
sequence by byte-equality of adjacent elements. -/
def collapse : List Bytes → List Bytes
  | [] => []
  | [a] => [a]
  | a :: b :: r => if a = b then collapse (b :: r) else a :: collapse (b :: r)

/-- Adjacent-dedup collapse of a sequence relative to the value last seen
before it. -/
def collapseFrom (lv : Option Bytes) : List Bytes → List Bytes
  | [] => []
  | e :: es => if some e = lv then collapseFrom (some e) es else e :: collapseFrom (some e) es

/-- `stutter ks E` repeats each element `E i` exactly `ks i` times in
order: the sequence of newest values observed by a consumer that polls at
least once between any two appends. -/
def stutter : List Nat → List Bytes → List Bytes
  | [], _ => []
  | _, [] => []
  | k :: ks, e :: es => List.replicate k e ++ stutter ks es

/-- Invariant of the consumer state: `lastValue` is the raw bytes of the
last accepted entry, the sink lines are exactly the trimmed accepted
entries, and no two adjacently accepted raw values are equal. -/
def ConsumerInv (s : ConsumerState) : Prop :=
  s.lastValue = s.raws.getLast? ∧
  s.sink = s.raws.map trimRightNewline ∧
  List.Chain' (fun a b => a ≠ b) s.raws

theorem getLast?_map_eq (f : Bytes → Bytes) (l : List Bytes) :
    (l.map f).getLast? = l.getLast?.map f := by
  induction l with
  | nil => rfl
  | cons a t ih =>
    cases t with
    | nil => rfl
    | cons b t2 =>
      simpa [List.getLast?_cons_cons] using ih

theorem subscribeStep_inv (s : ConsumerState) (op : List Bytes)
    (h : ConsumerInv s) : ConsumerInv (subscribeStep s op) := by
  obtain ⟨h1, h2, h3⟩ := h
  cases op with
  | nil => exact ⟨h1, h2, h3⟩
  | cons v rest =>
    by_cases hv : some v = s.lastValue
    · simp [subscribeStep, hv]
      exact ⟨h1, h2, h3⟩
    · simp [subscribeStep, hv, acceptValue]
      refine ⟨?_, ?_, ?_⟩
      · rw [List.getLast?_append_cons]
        rfl
      · simp [h2]
      · rw [List.chain'_append]
        refine ⟨h3, List.chain'_singleton v, ?_⟩
        intro x hx y hy
        simp at hy
        subst hy
        rw [← h1] at hx
        intro hxy
        subst hxy
        exact hv (by simpa using hx.symm)

theorem runSubscribe_inv (polls : List PollResult) :
    ∀ s : ConsumerState, ConsumerInv s → ConsumerInv (runSubscribe s polls).1 := by
  induction polls with
  | nil => intro s h; exact h
  | cons p rest ih =>
    intro s h
    cases p with
    | err => exact h
    | ok ops => exact ih _ (subscribeStep_inv s ops h)

theorem initConsumer_inv : ConsumerInv initConsumer := by
  refine ⟨rfl, rfl, ?_⟩
  exact List.chain'_nil

theorem consumeAll_cons (s : ConsumerState) (v : Bytes) (obs : List Bytes) :
    consumeAll s (v :: obs) = consumeAll (subscribeStep s [v]) obs := rfl

theorem consume_replicate (k : Nat) :
    ∀ s : ConsumerState, ∀ v : Bytes,
      consumeAll s (List.replicate (k + 1) v) =
        if some v = s.lastValue then s else acceptValue s v := by
  induction k with
  | zero =>
    intro s v
    by_cases hv : some v = s.lastValue <;>
      simp [consumeAll, subscribeStep, hv]
  | succ n ih =>
    intro s v
    rw [List.replicate_succ, consumeAll_cons]
    by_cases hv : some v = s.lastValue
    · rw [show subscribeStep s [v] = s by simp [subscribeStep, hv]]
      rw [ih s v]
    · rw [show subscribeStep s [v] = acceptValue s v by simp [subscribeStep, hv]]
      rw [ih (acceptValue s v) v]
      simp [hv, acceptValue]

theorem consume_stutter :
    ∀ (E : List Bytes) (ks : List Nat) (s : ConsumerState),
      ks.length = E.length → (∀ k ∈ ks, 0 < k) →
      (consumeAll s (stutter ks E)).sink =
        s.sink ++ (collapseFrom s.lastValue E).map trimRightNewline := by
  intro E
  induction E with
  | nil =>
    intro ks s hlen _
    have hks : ks = [] := List.length_eq_zero.mp (by simpa using hlen)
    subst hks
    simp [stutter, consumeAll, collapseFrom]
  | cons e es ih =>
    intro ks s hlen hpos
    cases ks with
    | nil => simp at hlen
    | cons k ks2 =>
      obtain ⟨k1, rfl⟩ := Nat.exists_eq_succ_of_ne_zero
        (Nat.pos_iff_ne_zero.mp (hpos k (by simp)))
      rw [show stutter ((k1 + 1) :: ks2) (e :: es) =
            List.replicate (k1 + 1) e ++ stutter ks2 es from rfl]
      rw [show consumeAll s (List.replicate (k1 + 1) e ++ stutter ks2 es) =
            consumeAll (consumeAll s (List.replicate (k1 + 1) e)) (stutter ks2 es) from
        List.foldl_append _ _ _ _]
      rw [consume_replicate k1 s e]
      by_cases hv : some e = s.lastValue
      · rw [if_pos hv]
        rw [ih ks2 s (by simpa using hlen) (fun k hk => hpos k (by simp [hk]))]
        rw [show collapseFrom s.lastValue (e :: es) = collapseFrom (some e) es by
          simp [collapseFrom, hv]]
        rw [← hv]
      · rw [if_neg hv]
        rw [ih ks2 (acceptValue s e) (by simpa using hlen)
          (fun k hk => hpos k (by simp [hk]))]
        rw [show collapseFrom s.lastValue (e :: es) = e :: collapseFrom (some e) es by
          simp [collapseFrom, hv]]
        simp [acceptValue]

theorem collapse_cons (es : List Bytes) :
    ∀ e : Bytes, collapse (e :: es) = e :: collapseFrom (some e) es := by
  induction es with
  | nil => intro e; rfl
  | cons b r ih =>
    intro e
    by_cases h : e = b
    · subst h
      simp only [collapse, collapseFrom, if_pos rfl]
      rw [ih e]
      simp
    · simp only [collapse, collapseFrom]
      rw [if_neg h, ih b]
      have hb : ¬ (some b = some e) := by simpa using fun hb => h hb.symm
      rw [if_neg hb]

theorem collapse_eq_from_none (E : List Bytes) :
    collapse E = collapseFrom none E := by
  cases E with
  | nil => rfl
  | cons e es =>
    rw [collapse_cons]
    simp [collapseFrom]

theorem runSubscribe_append (pre : List PollResult) :
    ∀ (s s₁ : ConsumerState) (rest : List PollResult),
      runSubscribe s pre = (s₁, false) →
      runSubscribe s (pre ++ rest) = runSubscribe s₁ rest := by
  induction pre with
  | nil =>
    intro s s₁ rest h
    have hs : s = s₁ := congrArg Prod.fst h
    subst hs
    rfl
  | cons p t ih =>
    intro s s₁ rest h
    cases p with
    | err => exact absurd (congrArg Prod.snd h) (by simp [runSubscribe])
    | ok ops => exact ih _ _ _ h

theorem runPublish_append (pre : List (Int × Bytes × Bool)) :
    ∀ (p p₁ : ProducerState) (pays : List Bytes) (rest : List (Int × Bytes × Bool)),
      runPublish p pre = (p₁, pays, false) →
      runPublish p (pre ++ rest) =
        ((runPublish p₁ rest).1, pays ++ (runPublish p₁ rest).2.1,
          (runPublish p₁ rest).2.2) := by
  induction pre with
  | nil =>
    intro p p₁ pays rest h
    have hp : p = p₁ := congrArg Prod.fst h
    have hpay : ([] : List Bytes) = pays := congrArg (fun x => x.2.1) h
    subst hp
    rw [← hpay]
    rfl
  | cons x t ih =>
    intro p p₁ pays rest h
    obtain ⟨now, w, ok⟩ := x
    rcases h2 : publishIter p now w ok with ⟨p', pay, b⟩
    cases b with
    | true =>
      rw [show runPublish p ((now, w, ok) :: t) = (p', [], true) by
        simp [runPublish, h2]] at h
      exact absurd (congrArg (fun x => x.2.2) h) (by simp)
    | false =>
      rw [show runPublish p ((now, w, ok) :: t) =
            ((runPublish p' t).1, pay.toList ++ (runPublish p' t).2.1,
              (runPublish p' t).2.2) by simp [runPublish, h2]] at h
      have h1 : (runPublish p' t).1 = p₁ := congrArg Prod.fst h
      have hpay : pay.toList ++ (runPublish p' t).2.1 = pays :=
        congrArg (fun x => x.2.1) h
      have hb : (runPublish p' t).2.2 = false := congrArg (fun x => x.2.2) h
      have hrun : runPublish p' t = (p₁, (runPublish p' t).2.1, false) := by
        rw [← h1, ← hb]
      have := ih p' p₁ (runPublish p' t).2.1 rest hrun
      rw [show runPublish p (((now, w, ok) :: t) ++ rest) =
            ((runPublish p' (t ++ rest)).1,
              pay.toList ++ (runPublish p' (t ++ rest)).2.1,
              (runPublish p' (t ++ rest)).2.2) by simp [runPublish, h2]]
      rw [this, ← hpay]
      simp

/-- Claim C1, counterexample: produce raw entries `[65]` ("A") and then
`[65, 10]` ("A\n").  Both are accepted — dedup compares raw bytes — but
both are written as the line "A" because trailing newlines are stripped
on write, so the sink holds two byte-identical adjacent entries,
refuting the claimed sink invariant. -/
theorem sink_adjacent_duplicate_lines :
    ((runSubscribe initConsumer
        [PollResult.ok [[65]], PollResult.ok [[65, 10], [65]]]).1).sink =
      [[65], [65]] ∧
    ¬ List.Chain' (fun a b => a ≠ b)
        ((runSubscribe initConsumer
          [PollResult.ok [[65]], PollResult.ok [[65, 10], [65]]]).1).sink := by
  constructor
  · rfl
  · intro hch
    rw [show ((runSubscribe initConsumer
          [PollResult.ok [[65]], PollResult.ok [[65, 10], [65]]]).1).sink =
        [[65], [65]] from rfl] at hch
    exact (List.chain'_cons.mp hch).1 rfl

/-- Claim C1, amended: a write is suppressed exactly when the newest
entry's raw bytes equal LastSeenValue, so the raw values of accepted
entries never repeat adjacently; the adjacency invariant holds for the
raw accepted values, not for the written lines, which are trimmed and can
therefore collide. -/
theorem raw_adjacent_dedup :
    (∀ (s : ConsumerState) (v : Bytes) (rest : List Bytes),
        subscribeStep s (v :: rest) = s ↔ some v = s.lastValue) ∧
    (∀ polls : List PollResult,
        List.Chain' (fun a b => a ≠ b)
          ((runSubscribe initConsumer polls).1).raws) := by
  constructor
  · intro s v rest
    constructor
    · intro h
      by_contra hv
      have hr : (subscribeStep s (v :: rest)).raws = s.raws ++ [v] := by
        simp [subscribeStep, hv, acceptValue]
      rw [h] at hr
      have := congrArg List.length hr
      simp at this
    · intro hv
      simp [subscribeStep, hv]
  · intro polls
    exact (runSubscribe_inv polls initConsumer initConsumer_inv).2.2

/-- Claim C2: when the consumer observes each produced entry at least
once (its observation sequence is a stuttering of the production
sequence), the final sink content is exactly the maximal adjacency
collapse of the produced sequence, each element written as one line with
trailing newlines stripped. -/
theorem sink_is_adjacent_collapse (E : List Bytes) (ks : List Nat)
    (hlen : ks.length = E.length) (hpos : ∀ k ∈ ks, 0 < k) :
    (consumeAll initConsumer (stutter ks E)).sink =
      (collapse E).map trimRightNewline := by
  rw [consume_stutter E ks initConsumer hlen hpos]
  rw [collapse_eq_from_none]
  rfl

/-- Witness for C2 at a concrete production sequence. -/
theorem sink_is_adjacent_collapse_witness :
    ([2, 1, 3] : List Nat).length = ([[65], [65], [66]] : List Bytes).length ∧
    (∀ k ∈ ([2, 1, 3] : List Nat), 0 < k) ∧
    (consumeAll initConsumer (stutter [2, 1, 3] [[65], [65], [66]])).sink =
      (collapse [[65], [65], [66]]).map trimRightNewline :=
  ⟨by decide, by decide,
    sink_is_adjacent_collapse [[65], [65], [66]] [2, 1, 3] (by decide) (by decide)⟩

/-- Claim C3: a consumer poll with an empty list is a no-op; a poll whose
newest entry equals LastSeenValue is a no-op; otherwise the entry is
written to the sink as one line with trailing newlines stripped and
LastSeenValue becomes the entry's raw bytes. -/
theorem consumer_poll_spec (s : ConsumerState) (v : Bytes) (rest : List Bytes) :
    subscribeStep s [] = s ∧
    (some v = s.lastValue → subscribeStep s (v :: rest) = s) ∧
    (some v ≠ s.lastValue →
      (subscribeStep s (v :: rest)).sink = s.sink ++ [trimRightNewline v] ∧
      (subscribeStep s (v :: rest)).lastValue = some v) := by
  refine ⟨rfl, ?_, ?_⟩
  · intro h
    simp [subscribeStep, h]
  · intro h
    simp [subscribeStep, h, acceptValue]

/-- Witness for C3, exercising the write branch from the initial state
and the no-op branch from a state that has just accepted the value. -/
theorem consumer_poll_spec_witness :
    subscribeStep initConsumer [] = initConsumer ∧
    some ([65] : Bytes) ≠ initConsumer.lastValue ∧
    (subscribeStep initConsumer [[65]]).sink =
      initConsumer.sink ++ [trimRightNewline [65]] ∧
    (subscribeStep initConsumer [[65]]).lastValue = some [65] ∧
    subscribeStep (acceptValue initConsumer [65]) [[65]] =
      acceptValue initConsumer [65] :=
  ⟨(consumer_poll_spec initConsumer [65] []).1, by decide,
   ((consumer_poll_spec initConsumer [65] []).2.2 (by decide)).1,
   ((consumer_poll_spec initConsumer [65] []).2.2 (by decide)).2,
   (consumer_poll_spec (acceptValue initConsumer [65]) [65] []).2.1 (by decide)⟩

/-- Claim C4, counterexample: with the interval elapsed and the append
failing, the iteration panics before `logbuf.Reset()`, so the buffer
still holds the whisper payload and is not empty. -/
theorem buffer_not_reset_on_failure :
    (publishIter ⟨[], 0⟩ 30 [123] false).1.logbuf = [123] ∧
    (publishIter ⟨[], 0⟩ 30 [123] false).1.logbuf ≠ [] ∧
    (publishIter ⟨[], 0⟩ 30 [123] false).2.2 = true := by
  decide

/-- Claim C4, amended: the buffer is empty after every iteration that
completes without panicking (no append due, or append succeeded); when
the append fails the loop panics before the reset and the buffer keeps
the pending payload. -/
theorem buffer_reset_spec (s : ProducerState) (now : Int) (w : Bytes) (ok : Bool) :
    ((publishIter s now w ok).2.2 = false →
      (publishIter s now w ok).1.logbuf = []) ∧
    ((publishIter s now w ok).2.2 = true →
      (publishIter s now w ok).1.logbuf = s.logbuf ++ w) := by
  unfold publishIter
  by_cases ht : 30 ≤ now - s.lastTriggerTime
  · cases ok <;> simp [ht]
  · simp [ht]

/-- Witness for C4 (amended) at concrete successful and failing
iterations. -/
theorem buffer_reset_spec_witness :
    ((publishIter ⟨[7], 0⟩ 30 [9] true).2.2 = false ∧
      (publishIter ⟨[7], 0⟩ 30 [9] true).1.logbuf = []) ∧
    ((publishIter ⟨[7], 0⟩ 30 [9] false).2.2 = true ∧
      (publishIter ⟨[7], 0⟩ 30 [9] false).1.logbuf = [7] ++ [9]) :=
  ⟨⟨by decide, (buffer_reset_spec ⟨[7], 0⟩ 30 [9] true).1 (by decide)⟩,
   ⟨by decide, (buffer_reset_spec ⟨[7], 0⟩ 30 [9] false).2 (by decide)⟩⟩

/-- Claim C5: an error from the consumer's List call or the producer's
Add call cancels the lifecycle and stops the failing loop immediately:
the state is frozen at the failing iteration, the entries scheduled after
the error are never processed, and nothing further is appended. -/
theorem fatal_error_cancels_and_stops
    (s s₁ : ConsumerState) (pre post : List PollResult)
    (hs : runSubscribe s pre = (s₁, false))
    (p p₁ : ProducerState) (pays : List Bytes)
    (ppre ppost : List (Int × Bytes × Bool)) (now : Int) (w : Bytes)
    (hp : runPublish p ppre = (p₁, pays, false))
    (ht : 30 ≤ now - p₁.lastTriggerTime) :
    runSubscribe s (pre ++ PollResult.err :: post) = (s₁, true) ∧
    runPublish p (ppre ++ (now, w, false) :: ppost) =
      (⟨p₁.logbuf ++ w, now⟩, pays, true) := by
  constructor
  · rw [runSubscribe_append pre s s₁ (PollResult.err :: post) hs]
    rfl
  · rw [runPublish_append ppre p p₁ pays ((now, w, false) :: ppost) hp]
    have hstep : runPublish p₁ ((now, w, false) :: ppost) =
        (⟨p₁.logbuf ++ w, now⟩, [], true) := by
      simp [runPublish, publishIter, ht]
    rw [hstep]
    simp

/-- Witness for C5 with empty prefixes and a first-call error. -/
theorem fatal_error_cancels_and_stops_witness :
    runSubscribe initConsumer [] = (initConsumer, false) ∧
    runPublish ⟨[], 0⟩ [] = (⟨[], 0⟩, [], false) ∧
    (30 : Int) ≤ 30 - (0 : Int) ∧
    runSubscribe initConsumer ([] ++ PollResult.err :: []) = (initConsumer, true) ∧
    runPublish ⟨[], 0⟩ ([] ++ (30, [5], false) :: []) =
      (⟨[] ++ [5], 30⟩, [], true) := by
  refine ⟨rfl, rfl, by decide, ?_, ?_⟩
  · exact (fatal_error_cancels_and_stops initConsumer initConsumer [] [] rfl
      ⟨[], 0⟩ ⟨[], 0⟩ [] [] [] 30 [5] rfl (by decide)).1
  · exact (fatal_error_cancels_and_stops initConsumer initConsumer [] [] rfl
      ⟨[], 0⟩ ⟨[], 0⟩ [] [] [] 30 [5] rfl (by decide)).2

/-- Claim C6, counterexample: from an already-cancelled lifecycle, a
consumer iteration whose List call still succeeds writes to the sink and
keeps looping — the loop body never inspects the cancellation flag, so
cancellation alone does not prevent further effects. -/
theorem write_after_cancellation :
    (consumerLoopIter ⟨true, initConsumer⟩ (PollResult.ok [[65]])).1.cancelled = true ∧
    (consumerLoopIter ⟨true, initConsumer⟩ (PollResult.ok [[65]])).1.consumer.sink =
      [[65]] ∧
    (consumerLoopIter ⟨true, initConsumer⟩ (PollResult.ok [[65]])).2 = false := by
  decide

/-- Claim C6, amended: the loops do not check the cancellation flag — an
iteration behaves identically whatever its value; effects stop after
cancellation only because the log calls on the cancelled context fail,
in which case each loop stops at its next call with no sink write and no
successful append. -/
theorem cancellation_via_call_failure :
    (∀ (c : Bool) (s : ConsumerState) (p : PollResult),
        (consumerLoopIter ⟨c, s⟩ p).1.consumer =
          (consumerLoopIter ⟨true, s⟩ p).1.consumer) ∧
    (∀ (s : ConsumerState) (post : List PollResult),
        runSubscribe s (PollResult.err :: post) = (s, true)) ∧
    (∀ (p : ProducerState) (now : Int) (w : Bytes)
        (rest : List (Int × Bytes × Bool)),
        30 ≤ now - p.lastTriggerTime →
        runPublish p ((now, w, false) :: rest) =
          (⟨p.logbuf ++ w, now⟩, [], true)) := by
  refine ⟨?_, ?_, ?_⟩
  · intro c s p
    cases p <;> rfl
  · intro s post
    rfl
  · intro p now w rest ht
    simp [runPublish, publishIter, ht]

/-- Witness for C6 (amended) at concrete inputs. -/
theorem cancellation_via_call_failure_witness :
    (consumerLoopIter ⟨false, initConsumer⟩ PollResult.err).1.consumer =
      (consumerLoopIter ⟨true, initConsumer⟩ PollResult.err).1.consumer ∧
    runSubscribe initConsumer (PollResult.err :: []) = (initConsumer, true) ∧
    (30 : Int) ≤ 31 - (0 : Int) ∧
    runPublish ⟨[], 0⟩ ((31, [5], false) :: []) = (⟨[] ++ [5], 31⟩, [], true) :=
  ⟨cancellation_via_call_failure.1 false initConsumer PollResult.err,
   cancellation_via_call_failure.2.1 initConsumer [],
   by decide,
   cancellation_via_call_failure.2.2 ⟨[], 0⟩ 31 [5] [] (by decide)⟩

/-- Claim C7, counterexample: on the interrupt exit path (and on the
producer-fatal path) the consumer goroutine is discarded without running
its deferred close, so the sink handle is closed zero times, not exactly
once. -/
theorem sink_not_closed_on_interrupt :
    sinkCloseCount ExitTrigger.interrupt = 0 ∧
    sinkCloseCount ExitTrigger.producerFatal = 0 := by
  decide

/-- Claim C7, amended: the sink handle is closed exactly once only when
the consumer loop itself exits through its fatal path; interrupt-driven
shutdown and the producer's fatal path terminate the process without the
program closing the handle. -/
theorem sink_close_exactly_on_consumer_fatal (t : ExitTrigger) :
    sinkCloseCount t = 1 ↔ t = ExitTrigger.consumerFatal := by
  cases t <;> decide

/-- Claim C8, counterexample: in the split-loop variant the single config
write happens during startup (PreRun), strictly before the loops start
and before any interrupt — not at shutdown. -/
theorem config_write_before_shutdown :
    (splitVariantTrace.takeWhile
        (fun e => e ≠ DaemonEvent.interruptReceived)).count
      DaemonEvent.configWrite = 1 ∧
    (splitVariantTrace.takeWhile (fun e => e ≠ DaemonEvent.loopsStart)).count
      DaemonEvent.configWrite = 1 := by
  decide

/-- Claim C8, amended: the configuration store is written exactly once
per run in both variants; in the combined-loop variant the write happens
at shutdown after the interrupt, while in the split-loop variant it
happens at the end of startup, before the loops run, and nothing is
written at shutdown. -/
theorem config_write_once_per_variant :
    splitVariantTrace.count DaemonEvent.configWrite = 1 ∧
    combinedVariantTrace.count DaemonEvent.configWrite = 1 ∧
    (combinedVariantTrace.takeWhile
        (fun e => e ≠ DaemonEvent.interruptReceived)).count
      DaemonEvent.configWrite = 0 ∧
    (splitVariantTrace.dropWhile (fun e => e ≠ DaemonEvent.loopsStart)).count
      DaemonEvent.configWrite = 0 := by
  decide

/-- Claim C9: the combined loop indexes `op[0]` without a length check;
after a successful append, an empty List result reaches the
index-out-of-range panic, and the access is safe exactly when the
returned list is non-empty. -/
theorem combined_head_access (ops : List Bytes) :
    (combinedLoopIter true (some ops) = IterOutcome.indexOutOfRange ↔ ops = []) ∧
    (ops ≠ [] → ∃ v rest, ops = v :: rest ∧
      combinedLoopIter true (some ops) = IterOutcome.value v) := by
  cases ops with
  | nil =>
    refine ⟨by simp [combinedLoopIter], ?_⟩
    intro h
    exact absurd rfl h
  | cons v rest =>
    refine ⟨by simp [combinedLoopIter], ?_⟩
    intro _
    exact ⟨v, rest, rfl, rfl⟩

/-- Witness for C9 at the empty and a singleton list. -/
theorem combined_head_access_witness :
    (combinedLoopIter true (some ([] : List Bytes)) =
      IterOutcome.indexOutOfRange ↔ ([] : List Bytes) = []) ∧
    ([[65]] : List Bytes) ≠ [] ∧
    (∃ v rest, ([[65]] : List Bytes) = v :: rest ∧
      combinedLoopIter true (some [[65]]) = IterOutcome.value v) :=
  ⟨(combined_head_access []).1, by decide,
   (combined_head_access [[65]]).2 (by decide)⟩

/-- Claim C10: in every reachable consumer state with a non-empty sink,
LastSeenValue equals the raw bytes of the most recently accepted entry
and the last sink line equals those bytes with trailing newlines
stripped. -/
theorem lastValue_matches_sink_tail (polls : List PollResult)
    (h : ((runSubscribe initConsumer polls).1).sink ≠ []) :
    ∃ r, ((runSubscribe initConsumer polls).1).raws.getLast? = some r ∧
      ((runSubscribe initConsumer polls).1).lastValue = some r ∧
      ((runSubscribe initConsumer polls).1).sink.getLast? =
        some (trimRightNewline r) := by
  obtain ⟨h1, h2, _⟩ := runSubscribe_inv polls initConsumer initConsumer_inv
  have hraws : ((runSubscribe initConsumer polls).1).raws ≠ [] := by
    intro hr
    apply h
    rw [h2, hr]
    rfl
  cases hlast : ((runSubscribe initConsumer polls).1).raws.getLast? with
  | none => exact absurd (List.getLast?_eq_none_iff.mp hlast) hraws
  | some r =>
    refine ⟨r, rfl, ?_, ?_⟩
    · rw [h1, hlast]
    · rw [h2, getLast?_map_eq, hlast]
      rfl

/-- Witness for C10 after one accepted entry. -/
theorem lastValue_matches_sink_tail_witness :
    ((runSubscribe initConsumer [PollResult.ok [[65, 10]]]).1).sink ≠ [] ∧
    ∃ r, ((runSubscribe initConsumer [PollResult.ok [[65, 10]]]).1).raws.getLast? =
        some r ∧
      ((runSubscribe initConsumer [PollResult.ok [[65, 10]]]).1).lastValue = some r ∧
      ((runSubscribe initConsumer [PollResult.ok [[65, 10]]]).1).sink.getLast? =
        some (trimRightNewline r) :=
  ⟨by decide, lastValue_matches_sink_tail [PollResult.ok [[65, 10]]] (by decide)⟩

end SensorMesh
